import Mathlib

/-!
# Verification of the Excel BOQ parser core (src/main.py)

Shallow embedding of the row-visibility filter, column-role detection,
article-code detection, BOQ-line classification, summary aggregation and
the two endpoint pipelines of the parser, together with theorems settling
the specification claims.

Modelling conventions:
* Python `None`/str/int/float/bool/datetime cell values become the `Value`
  inductive.  Floats are modelled as rationals carrying their textual
  rendering (`str(float)`) as data, since IEEE-754 shortest-repr printing
  is outside the scope of the embedding; dates likewise carry their
  rendering.  `isinstance(x, (int, float))` is `Value.isNumericPy`, which
  is true for booleans as well, because Python `bool` is a subtype of
  `int`.
* `str.strip`, `str.lower`, `str.split` are modelled over ASCII plus the
  Latin-1 letter range; the claims only exercise that range.
* The external decoders (openpyxl / xlrd) are abstracted: an endpoint
  receives an `Except String Sheet` standing for the decoder's outcome on
  the uploaded bytes, where `Sheet` is the adapter-level grid (sheet name,
  hidden row indices from the sheet metadata, and the emitted rows).
-/

/-- Python whitespace characters recognised by `str.strip` / `str.split`
(ASCII range). -/
def pyIsSpace (c : Char) : Bool :=
  c = ' ' || c = '\t' || c = '\n' || c = '\x0d' || c = '\x0b' || c = '\x0c'

/-- `str.strip()`: drop leading and trailing whitespace. -/
def pyStrip (s : String) : String :=
  String.mk (((s.data.dropWhile pyIsSpace).reverse.dropWhile pyIsSpace).reverse)

/-- `str.lower()` on one character, for ASCII and the Latin-1 letter block
(covers the accented keyword alphabet used by the parser). -/
def pyToLower (c : Char) : Char :=
  if 'A' ≤ c ∧ c ≤ 'Z' then Char.ofNat (c.toNat + 32)
  else if 'À' ≤ c ∧ c ≤ 'Þ' ∧ c ≠ '×' then Char.ofNat (c.toNat + 32)
  else c

/-- `str.lower()`. -/
def pyLower (s : String) : String := String.mk (s.data.map pyToLower)

/-- `sub` occurs in `l` (contiguously): Python's `sub in s` on char lists. -/
def listContainsSub (sub : List Char) : List Char → Bool
  | [] => sub.isEmpty
  | c :: rest => sub.isPrefixOf (c :: rest) || listContainsSub sub rest

/-- Python's substring test `sub in s`. -/
def strContainsSub (s sub : String) : Bool := listContainsSub sub.data s.data

/-- Helper of `pyCollapseWs`: copy characters, turning each whitespace run
that is followed by another word into a single space (`pending` records
that whitespace was seen since the last word character). -/
def collapseWsAux : Bool → List Char → List Char
  | _, [] => []
  | pending, c :: rest =>
    if pyIsSpace c then collapseWsAux true rest
    else if pending then ' ' :: c :: collapseWsAux false rest
    else c :: collapseWsAux false rest

/-- `" ".join(s.split())`: split on whitespace runs and re-join with single
spaces (this both collapses runs and trims the ends). -/
def pyCollapseWs (s : String) : String :=
  String.mk (collapseWsAux false (s.data.dropWhile pyIsSpace))

/-- A typed cell value as produced by the decoders.  `float` and `date`
carry their Python `str()` rendering as data (see module comment). -/
inductive Value where
  | null
  | str (s : String)
  | int (n : Int)
  | float (q : ℚ) (rendering : String)
  | bool (b : Bool)
  | date (rendering : String)
deriving DecidableEq, Repr

/-- Python `str(value)` (never applied to `null` by the modelled code;
`str(None)` is "None"). -/
def pyStr : Value → String
  | Value.null => "None"
  | Value.str s => s
  | Value.int n => toString n
  | Value.float _ r => r
  | Value.bool b => if b then "True" else "False"
  | Value.date r => r

/-- `isinstance(v, (int, float))` — true for booleans too, since Python
`bool` is a subclass of `int`. -/
def Value.isNumericPy : Value → Bool
  | Value.int _ => true
  | Value.float _ _ => true
  | Value.bool _ => true
  | _ => false

/-- `isinstance(v, str)`. -/
def Value.isStr : Value → Bool
  | Value.str _ => true
  | _ => false

/-- Python `float(v)` for a value accepted by `isNumericPy`
(`float(True) = 1.0`, `float(False) = 0.0`); 0 elsewhere (unreached). -/
def Value.toFloatQ : Value → ℚ
  | Value.int n => (n : ℚ)
  | Value.float q _ => q
  | Value.bool b => if b then 1 else 0
  | _ => 0

/-- One cell of the adapter-level grid (the dicts built by
`extract_visible_rows_from_active_sheet`). -/
structure Cell where
  address : String
  col_index : Int
  col_letter : String
  row_index : Int
  value : Value
deriving DecidableEq, Repr

/-- One adapter-level row. -/
structure Row where
  row_index : Int
  cells : List Cell
deriving DecidableEq, Repr

/-- The decoded sheet handed to the filtering stage: its name, the row
indices flagged hidden by the sheet metadata (`row_dimensions` /
`rowinfo_map`), and the adapter-emitted rows. -/
structure Sheet where
  sheet_name : String
  hiddenRows : List Int
  rows : List Row
deriving DecidableEq, Repr

/-- `value is not None and str(value).strip() != ""` — the per-cell
non-blankness test of the emptiness filter (the xlrd branch's extra
`value not in (None, "")` test is subsumed by the strip test). -/
def cellNonBlank (c : Cell) : Bool :=
  if c.value = Value.null then false
  else if pyStrip (pyStr c.value) = "" then false
  else true

/-- A row survives the filter iff its index is not flagged hidden and some
cell is non-blank. -/
def keepRow (hidden : List Int) (r : Row) : Bool :=
  if r.row_index ∈ hidden then false else r.cells.any cellNonBlank

/-- The filtering loop shared by both decoder branches: skip hidden rows,
skip all-blank rows, append survivors, and `break` as soon as the kept
count reaches `max_rows` (the check runs after each append, mirroring
`if max_rows is not None and len(rows_out) >= max_rows: break`). -/
def extractAux (hidden : List Int) (maxRows : Option Int) (acc : List Row) :
    List Row → List Row
  | [] => acc
  | r :: rest =>
    if r.row_index ∈ hidden then extractAux hidden maxRows acc rest
    else if r.cells.any cellNonBlank then
      let acc2 := acc ++ [r]
      match maxRows with
      | some m => if (acc2.length : Int) ≥ m then acc2 else extractAux hidden maxRows acc2 rest
      | none => extractAux hidden maxRows acc2 rest
    else extractAux hidden maxRows acc rest

/-- The error taxonomy of the service. -/
inductive ParseError where
  | unsupportedExtension (detail : String)
  | unreadableWorkbook (detail : String)
deriving DecidableEq, Repr

/-- The value returned by `extract_visible_rows_from_active_sheet`. -/
structure ExtractResult where
  sheet_name : String
  row_count : Nat
  rows : List Row
deriving DecidableEq, Repr

/-- The extension families accepted by `extract_visible_rows_from_active_sheet`. -/
def xlsxFamily : List String := [".xlsx", ".xlsm", ".xltx", ".xltm"]

/-- `extract_visible_rows_from_active_sheet`: lowercase the extension,
dispatch on the format family, surface decoder failures as
`UnreadableWorkbook`, reject unknown extensions, and otherwise run the
hidden/emptiness filter with the optional `max_rows` cap.  `decoded`
abstracts the external decoder's outcome on the uploaded bytes. -/
def extract_visible_rows_from_active_sheet (decoded : Except String Sheet)
    (file_extension : String) (maxRows : Option Int) :
    Except ParseError ExtractResult :=
  let ext := pyLower file_extension
  if ext ∈ xlsxFamily then
    match decoded with
    | Except.error e =>
        Except.error (ParseError.unreadableWorkbook
          ("Impossible de lire le fichier Excel (openpyxl): " ++ e))
    | Except.ok sh =>
        let rows := extractAux sh.hiddenRows maxRows [] sh.rows
        Except.ok (ExtractResult.mk sh.sheet_name rows.length rows)
  else if ext = ".xls" then
    match decoded with
    | Except.error e =>
        Except.error (ParseError.unreadableWorkbook
          ("Impossible de lire le fichier XLS (xlrd): " ++ e))
    | Except.ok sh =>
        let rows := extractAux sh.hiddenRows maxRows [] sh.rows
        Except.ok (ExtractResult.mk sh.sheet_name rows.length rows)
  else
    Except.error (ParseError.unsupportedExtension
      ("Extension de fichier non supportée: " ++ ext))

/-- The five semantic column roles. -/
inductive Role where
  | quantity
  | unit
  | unit_price
  | amount
  | weight_kg
deriving DecidableEq, Repr

/-- `HEADER_KEYWORDS`: the fixed role → trigger-substring table. -/
def HEADER_KEYWORDS : Role → List String
  | Role.quantity => ["quantité", "qté", "qte", "qty", "hoeveelheid"]
  | Role.unit => ["unité", "unit", "eenheid", "u", "u.", "un", "un."]
  | Role.unit_price => ["pu", "prix unitaire", "unit price", "eenheidsprijs"]
  | Role.amount => ["montant", "total", "totaal", "amount", "sommes"]
  | Role.weight_kg => ["kg", "poids", "gewicht"]

/-- The keyword-phase per-cell test: skip `None`, lowercase the trimmed
stringification, skip the empty string, and look for any of the role's
keywords as a substring. -/
def cellKeywordHit (role : Role) (c : Cell) : Bool :=
  if c.value = Value.null then false
  else
    let v := pyLower (pyStrip (pyStr c.value))
    if v = "" then false
    else (HEADER_KEYWORDS role).any (fun k => strContainsSub v k)

/-- All keyword-phase candidate column letters of a role, in scan order
(row-major, then column-major within a row). -/
def keywordCandidates (rows_preview : List Row) (role : Role) : List String :=
  (rows_preview.map (fun r => r.cells.filterMap
      (fun c => if cellKeywordHit role c then some c.col_letter else none))).flatten

/-- Lexicographic (code-point) strict order on character lists — the
order Python's `sorted` uses on strings. -/
def listLexLt : List Char → List Char → Bool
  | [], [] => false
  | [], _ :: _ => true
  | _ :: _, [] => false
  | a :: as, b :: bs =>
    if a.toNat < b.toNat then true
    else if b.toNat < a.toNat then false
    else listLexLt as bs

/-- Python's `s < t` on strings. -/
def strLt (s t : String) : Bool := listLexLt s.data t.data

/-- `sorted(cols)[0]`: the lexicographically smallest string of the list
(code-point order), or `none` for the empty list. -/
def minString? : List String → Option String
  | [] => none
  | s :: rest =>
    match minString? rest with
    | none => some s
    | some m => some (if strLt s m then s else m)

/-- The resolved role → column-letter mapping (absent roles are `none`). -/
structure ColumnRoles where
  quantity : Option String
  unit : Option String
  unit_price : Option String
  amount : Option String
  weight_kg : Option String
deriving DecidableEq, Repr

/-- Look a role up in a `ColumnRoles` mapping. -/
def ColumnRoles.get (r : ColumnRoles) : Role → Option String
  | Role.quantity => r.quantity
  | Role.unit => r.unit
  | Role.unit_price => r.unit_price
  | Role.amount => r.amount
  | Role.weight_kg => r.weight_kg

/-- `" ".join(v.replace("|", " ").split()).lower()` — the cell-text
normalization of the hint scan: pipes to spaces, whitespace runs
collapsed (ends trimmed), lowercased. -/
def pipeCollapseLowerNorm (s : String) : String :=
  pyLower (pyCollapseWs (String.mk (s.data.map (fun ch => if ch = '|' then ' ' else ch))))

/-- `find_col_by_hint`: strip-and-lowercase the hint, then scan the preview
window in row-major order for the first non-`None` cell whose
pipe-to-space, whitespace-collapsed, lowercased stringification contains
the hint as a substring; return that cell's column letter. -/
def find_col_by_hint (rows_preview : List Row) (hint : String) : Option String :=
  let hint_norm := pyLower (pyStrip hint)
  rows_preview.findSome? (fun row => row.cells.findSome? (fun c =>
    if c.value = Value.null then none
    else if strContainsSub (pipeCollapseLowerNorm (pyStr c.value)) hint_norm
      then some c.col_letter else none))

/-- `detect_column_roles`: keyword phase collapsed with `sorted(cols)[0]`
per role, then the quantity and unit hint overrides.  A hint participates
only when it is supplied and non-empty (Python truthiness of the optional
string), and an override happens only when the found column letter is
itself truthy. -/
def detect_column_roles (rows_preview : List Row)
    (quantity_header_hint : Option String)
    (unit_header_hint : Option String) : ColumnRoles :=
  let simplified := ColumnRoles.mk
    (minString? (keywordCandidates rows_preview Role.quantity))
    (minString? (keywordCandidates rows_preview Role.unit))
    (minString? (keywordCandidates rows_preview Role.unit_price))
    (minString? (keywordCandidates rows_preview Role.amount))
    (minString? (keywordCandidates rows_preview Role.weight_kg))
  let withQ :=
    match quantity_header_hint with
    | some h =>
      if h = "" then simplified
      else
        match find_col_by_hint rows_preview h with
        | some col =>
          if col = "" then simplified
          else ColumnRoles.mk (some col) simplified.unit simplified.unit_price
            simplified.amount simplified.weight_kg
        | none => simplified
    | none => simplified
  match unit_header_hint with
  | some h =>
    if h = "" then withQ
    else
      match find_col_by_hint rows_preview h with
      | some col =>
        if col = "" then withQ
        else ColumnRoles.mk withQ.quantity (some col) withQ.unit_price
          withQ.amount withQ.weight_kg
      | none => withQ
  | none => withQ

/-- ASCII uppercase letter (the regex class `[A-Z]`). -/
def isUpperAZ (c : Char) : Bool := 'A' ≤ c && c ≤ 'Z'

/-- State "inside the `\d+` of a `\.\d+` group" of the matcher for
`(\.\d+)*(\.[A-Z])?\.`: consume further digits, then continue like
`artTail` at the first non-digit (its cases are inlined here so the
recursion stays structural).  The run is consumed whole: every regex
alternative that may follow a digit starts with a dot. -/
def artAfterDigits : List Char → Bool
  | [] => false
  | [c] => decide (c = '.')
  | c :: c2 :: rest =>
    if c.isDigit then artAfterDigits (c2 :: rest)
    else if c = '.' then
      if c2.isDigit then artAfterDigits rest
      else if isUpperAZ c2 then decide (rest = ['.'])
      else false
    else false

/-- Matcher for the tail `(\.\d+)*(\.[A-Z])?\.` of `ARTICLE_CODE_REGEX`.
After a dot, a digit commits to a `\.\d+` group (no other alternative can
start with a digit), an uppercase letter commits to `\.[A-Z]` followed by
the final dot, and anything else fails; the string `"."` alone is the
final dot. -/
def artTail : List Char → Bool
  | ['.'] => true
  | '.' :: c :: rest =>
    if c.isDigit then artAfterDigits rest
    else if isUpperAZ c then decide (rest = ['.'])
    else false
  | _ => false

/-- The anchored pattern `^\d{3}(\.\d+)*(\.[A-Z])?\.$` as a Boolean
matcher over the string's characters (`\d` restricted to ASCII digits,
which is all the sources exercise). -/
def ARTICLE_CODE_REGEX (s : String) : Bool :=
  match s.data with
  | a :: b :: c :: rest => a.isDigit && b.isDigit && c.isDigit && artTail rest
  | _ => false

/-- The per-cell step of `detect_article_code`: skip `None`, trim the
stringification, return it when the pattern matches. -/
def articleCellMatch (c : Cell) : Option String :=
  if c.value = Value.null then none
  else
    let v := pyStrip (pyStr c.value)
    if ARTICLE_CODE_REGEX v then some v else none

/-- `detect_article_code`: the first cell's trimmed text matching the
article pattern, in cell order. -/
def detect_article_code (cells : List Cell) : Option String :=
  cells.findSome? articleCellMatch

/-- One left-to-right pass performing `.replace("m²", "m2")` and
`.replace("m³", "m3")` (the two sequential replaces commute with the
single pass because neither replacement can create a new occurrence). -/
def fixSuperscripts : List Char → List Char
  | 'm' :: '²' :: rest => 'm' :: '2' :: fixSuperscripts rest
  | 'm' :: '³' :: rest => 'm' :: '3' :: fixSuperscripts rest
  | c :: rest => c :: fixSuperscripts rest
  | [] => []

/-- `normalize_unit`: `None` passes through; otherwise stringify, strip,
lowercase, rewrite the superscript area glyphs, and map the empty result
to `None` (`return v or None`). -/
def normalize_unit (u : Value) : Option String :=
  match u with
  | Value.null => none
  | _ =>
    let v := pyLower (pyStrip (pyStr u))
    let v2 := String.mk (fixSuperscripts v.data)
    if v2 = "" then none else some v2

/-- `cell_by_col_letter`: first cell with the given column letter. -/
def cell_by_col_letter (cells : List Cell) (col_letter : String) : Option Cell :=
  cells.find? (fun c => c.col_letter == col_letter)

/-- A classified BOQ line. -/
structure BoqLine where
  row_index : Int
  is_boq_line : Bool
  article_code : Option String
  unit : Option String
  quantity : Option ℚ
  weight_kg : Option ℚ
deriving DecidableEq, Repr

/-- `to_boq_line`: derive article code, unit, quantity and weight from the
row under the run-wide `ColumnRoles`, and the conjunction heuristic
`is_boq_line`.  Numeric acceptance is `isinstance(value, (int, float))`,
hence `Value.isNumericPy` (booleans included); role columns are looked up
only when the stored letter is truthy. -/
def to_boq_line (row : Row) (column_roles : ColumnRoles) : BoqLine :=
  let cells := row.cells
  let article_code := detect_article_code cells
  let unit : Option String :=
    match column_roles.unit with
    | some unit_col =>
      if unit_col = "" then none
      else
        match cell_by_col_letter cells unit_col with
        | some c => if c.value = Value.null then none else normalize_unit c.value
        | none => none
    | none => none
  let quantity : Option ℚ :=
    match column_roles.quantity with
    | some qty_col =>
      if qty_col = "" then none
      else
        match cell_by_col_letter cells qty_col with
        | some c => if c.value.isNumericPy then some c.value.toFloatQ else none
        | none => none
    | none => none
  let weight_kg : Option ℚ :=
    match column_roles.weight_kg with
    | some w_col =>
      if w_col = "" then none
      else
        match cell_by_col_letter cells w_col with
        | some c => if c.value.isNumericPy then some c.value.toFloatQ else none
        | none => none
    | none => none
  let has_description :=
    cells.any (fun c => c.value.isStr && decide (5 < (pyStrip (pyStr c.value)).length))
  let has_numeric := cells.any (fun c => c.value.isNumericPy)
  let is_boq_line := has_description && has_numeric &&
    (article_code.isSome || unit.isSome || quantity.isSome || weight_kg.isSome)
  BoqLine.mk row.row_index is_boq_line article_code unit quantity weight_kg

/-- The roll-up summary. -/
structure Summary where
  total_quantity : ℚ
  total_weight_kg : ℚ
deriving DecidableEq, Repr

/-- `summarize_boq_lines`: fold over the lines, skipping those with
`is_boq_line` false, adding `quantity` and `weight_kg` when present
(`isinstance(q, (int, float))` on an optional float is presence). -/
def summarize_boq_lines (boq_lines : List BoqLine) : Summary :=
  let t := boq_lines.foldl
    (fun (acc : ℚ × ℚ) line =>
      if line.is_boq_line then
        (acc.1 + (match line.quantity with | some q => q | none => 0),
         acc.2 + (match line.weight_kg with | some w => w | none => 0))
      else acc)
    ((0 : ℚ), (0 : ℚ))
  Summary.mk t.1 t.2

/-- The accepted upload extensions of both endpoints. -/
def acceptedExtensions : List String := [".xlsx", ".xlsm", ".xltx", ".xltm", ".xls"]

/-- `os.path.splitext(p)[1]` (POSIX separator): the suffix of the basename
from its last dot, provided some earlier basename character is not a dot
(leading dots do not start an extension). -/
def splitextExt (p : String) : String :=
  let rev := p.data.reverse.takeWhile (fun c => c ≠ '/')
  let extRev := rev.takeWhile (fun c => c ≠ '.')
  match rev.drop extRev.length with
  | '.' :: before =>
    if before.any (fun c => c ≠ '.') then String.mk ('.' :: extRev.reverse) else ""
  | _ => ""

/-- The `/parse_excel` response body. -/
structure RawResponse where
  filename : String
  sheet_name : String
  row_count : Nat
  rows : List Row
deriving DecidableEq, Repr

/-- The `/parse_excel` endpoint: default the filename, lowercase its
extension, reject unsupported extensions before the workbook bytes are
ever decoded, and otherwise run the extraction. -/
def parse_excel (filename : String) (decoded : Except String Sheet)
    (maxRows : Option Int) : Except ParseError RawResponse :=
  let fn := if filename = "" then "uploaded" else filename
  let ext := pyLower (splitextExt fn)
  if ext ∈ acceptedExtensions then
    match extract_visible_rows_from_active_sheet decoded ext maxRows with
    | Except.ok d => Except.ok (RawResponse.mk fn d.sheet_name d.row_count d.rows)
    | Except.error e => Except.error e
  else
    Except.error (ParseError.unsupportedExtension
      "Le fichier doit être un Excel .xlsx / .xlsm / .xltx / .xltm / .xls")

/-- The `/parse_excel_transformed` response body. -/
structure TransformedResponse where
  filename : String
  sheet_name : String
  row_count : Nat
  column_roles : ColumnRoles
  boq_lines : List BoqLine
  summary : Summary
deriving DecidableEq, Repr

/-- The `/parse_excel_transformed` endpoint: same extension gate, then
extraction, role detection over the first 30 surviving rows with the
optional hints, per-row classification and the summary. -/
def parse_excel_transformed (filename : String) (decoded : Except String Sheet)
    (maxRows : Option Int)
    (quantity_header_hint unit_header_hint : Option String) :
    Except ParseError TransformedResponse :=
  let fn := if filename = "" then "uploaded" else filename
  let ext := pyLower (splitextExt fn)
  if ext ∈ acceptedExtensions then
    match extract_visible_rows_from_active_sheet decoded ext maxRows with
    | Except.ok d =>
      let rows := d.rows
      let rows_preview := rows.take 30
      let column_roles :=
        detect_column_roles rows_preview quantity_header_hint unit_header_hint
      let boq_lines := rows.map (fun r => to_boq_line r column_roles)
      let summary := summarize_boq_lines boq_lines
      Except.ok (TransformedResponse.mk fn d.sheet_name d.row_count column_roles
        boq_lines summary)
    | Except.error e => Except.error e
  else
    Except.error (ParseError.unsupportedExtension
      "Le fichier doit être un Excel .xlsx / .xlsm / .xltx / .xltm / .xls")

/-- Witness for C6: a hidden row with visible content is dropped, an
all-blank row is dropped, and the visible non-blank row is kept. -/
def rowHiddenW : Row := Row.mk 1 [Cell.mk "A1" 1 "A" 1 (Value.str "hidden content")]

def rowVisibleW : Row := Row.mk 2 [Cell.mk "A2" 1 "A" 2 (Value.str "content")]

def rowBlankW : Row := Row.mk 3 [Cell.mk "A3" 1 "A" 3 Value.null,
  Cell.mk "B3" 2 "B" 3 (Value.str "   ")]

def sheetW6 : Sheet := Sheet.mk "S" [1] [rowHiddenW, rowVisibleW, rowBlankW]

/-- Counterexample to C7 as stated: with `max_rows = 0` the code still
emits the first surviving row, because the cap is checked only after a
row has been appended. -/
def rowC7 : Row := Row.mk 1 [Cell.mk "A1" 1 "A" 1 (Value.str "x")]

def sheetC7 : Sheet := Sheet.mk "S" [] [rowC7]

/-- Witness for C7: `max_rows = 2` on a three-survivor sheet keeps the
first two surviving rows. -/
def sheetW7 : Sheet := Sheet.mk "S" []
  [Row.mk 1 [Cell.mk "A1" 1 "A" 1 (Value.str "a")],
   Row.mk 2 [Cell.mk "A2" 1 "A" 2 (Value.str "b")],
   Row.mk 3 [Cell.mk "A3" 1 "A" 3 (Value.str "c")]]

/-- Spec signal (a): some cell is textual and, trimmed, longer than 5
characters (computed over all cells, independent of roles). -/
def has_description_signal (cells : List Cell) : Bool :=
  cells.any (fun c => c.value.isStr && decide (5 < (pyStrip (pyStr c.value)).length))

/-- Signal (b) as the code computes it: some cell passes
`isinstance(value, (int, float))`, which booleans do. -/
def has_numeric_signal (cells : List Cell) : Bool :=
  cells.any (fun c => c.value.isNumericPy)

/-- Signal (b) as the claim words it, with the data model's *number* kind
only (int or float, booleans being a distinct value kind). -/
def has_number_kind_cell (cells : List Cell) : Bool :=
  cells.any (fun c => match c.value with
    | Value.int _ => true
    | Value.float _ _ => true
    | _ => false)

/-- Counterexample to C1 as stated: a row whose only non-text cell is a
boolean is classified `is_boq_line = true` (the boolean satisfies the
code's numeric test and fills `quantity`), although no cell holds a
number-kind value, so the claimed iff fails. -/
def rowC1 : Row := Row.mk 1
  [Cell.mk "A1" 1 "A" 1 (Value.str "abcdefgh"), Cell.mk "B1" 2 "B" 1 (Value.bool true)]

def rolesC1 : ColumnRoles := ColumnRoles.mk (some "B") none none none none

/-- Counterexample to C4 as stated: a boolean in the quantity column is
not treated as absent — `isinstance(True, (int, float))` holds in Python,
so the line's quantity becomes `float(True) = 1.0`. -/
def rowC4 : Row := Row.mk 1 [Cell.mk "A1" 1 "A" 1 (Value.bool true)]

def rolesC4 : ColumnRoles := ColumnRoles.mk (some "A") none none none none

def rowC4w : Row := Row.mk 1
  [Cell.mk "A1" 1 "A" 1 (Value.bool true), Cell.mk "B1" 2 "B" 1 (Value.str "words")]

def rolesC4w : ColumnRoles := ColumnRoles.mk (some "A") none none none (some "B")

/-- Witness for C9, exercising the claim's own example: candidate columns
{"B", "AA"} resolve to "AA" (letter-string comparison). -/
def rowKW9 : Row := Row.mk 1
  [Cell.mk "B1" 2 "B" 1 (Value.str "qty"), Cell.mk "AA1" 27 "AA" 1 (Value.str "Qty total")]

/-- The hint scan as claim C5 words it: hint and cell text normalized
*identically* (pipes to spaces, whitespace collapsed, lowercased). -/
def claimHintResolve (rows_preview : List Row) (hint : String) : Option String :=
  rows_preview.findSome? (fun row => row.cells.findSome? (fun c =>
    if c.value = Value.null then none
    else if strContainsSub (pipeCollapseLowerNorm (pyStr c.value))
        (pipeCollapseLowerNorm hint)
      then some c.col_letter else none))

/-- The hint scan as the amended claim words it: the hint is only trimmed
and lowercased, while the cell text gets the pipe/collapse/lowercase
normalization. -/
def amendedHintResolve (rows_preview : List Row) (hint : String) : Option String :=
  rows_preview.findSome? (fun row => row.cells.findSome? (fun c =>
    if c.value = Value.null then none
    else if strContainsSub (pipeCollapseLowerNorm (pyStr c.value))
        (pyLower (pyStrip hint))
      then some c.col_letter else none))

/-- Column letter of the first cell (row-major, then column-major order)
holding a non-null value. -/
def firstNonNullCol (rows_preview : List Row) : Option String :=
  rows_preview.findSome? (fun row => row.cells.findSome? (fun c =>
    if c.value = Value.null then none else some c.col_letter))

/-- Counterexample to C5 as stated: with the cell "a b" in column A, the
hint "a  b" (double space) normalizes per the claim to "a b", which the
claim-side scan finds in column A — but the code strips and lowercases
the hint only, so "a  b" is not found and no override happens. -/
def rowC5 : Row := Row.mk 1 [Cell.mk "A1" 1 "A" 1 (Value.str "a b")]

/-- Witness for C5: hint "b c" (trim+lower normalization) matches the cell
"b | c" after the cell-side pipe/collapse normalization and overrides the
keyword-phase quantity column "A" with "B". -/
def rowC5w : Row := Row.mk 1
  [Cell.mk "A1" 1 "A" 1 (Value.str "quantité"), Cell.mk "B1" 2 "B" 1 (Value.str "b | c")]

/-- Witness for C10: preview with a null cell in column A and text in
column B; the hint `" "` resolves quantity to "B". -/
def rowC10 : Row := Row.mk 1
  [Cell.mk "A1" 1 "A" 1 Value.null, Cell.mk "B1" 2 "B" 1 (Value.str "zz")]

/-- Matcher for the pattern as claim C3 words it:
`^\d{3}(\.\d{3})*(\.[A-Z])?\.$` — every dot-separated digit group exactly
three digits long. -/
def claimTail : List Char → Bool
  | ['.'] => true
  | '.' :: c :: rest =>
    if c.isDigit then
      match rest with
      | c2 :: c3 :: rest2 => if c2.isDigit && c3.isDigit then claimTail rest2 else false
      | _ => false
    else if isUpperAZ c then decide (rest = ['.'])
    else false
  | _ => false

/-- The claim's article pattern: three digits, then `claimTail`. -/
def claimArticlePattern (s : String) : Bool :=
  match s.data with
  | a :: b :: c :: rest => a.isDigit && b.isDigit && c.isDigit && claimTail rest
  | _ => false

/-- Counterexample to C3 as stated: the code's regex `(\.\d+)*` accepts
later digit groups of any positive length, so `"003.1234."` is returned
although it contains a four-digit group and does not have the claimed
all-groups-of-three shape. -/
def cellC3 : Cell := Cell.mk "A1" 1 "A" 1 (Value.str "003.1234.")

/-- The structure matched by the regex tail `(\.\d+)*(\.[A-Z])?\.`: zero
or more dot-prefixed non-empty digit groups, then either the final dot
alone or a dot, one uppercase letter and the final dot. -/
inductive ArticleTail : List Char → Prop where
  | finalDot : ArticleTail ['.']
  | letterDot (u : Char) : isUpperAZ u = true → ArticleTail ['.', u, '.']
  | group (ds rest : List Char) : ds ≠ [] → (∀ c ∈ ds, c.isDigit = true) →
      ArticleTail rest → ArticleTail ('.' :: (ds ++ rest))

/-- The structure matched by `^\d{3}(\.\d+)*(\.[A-Z])?\.$`: exactly three
digits followed by an `ArticleTail`. -/
def ArticleCodeSpec (s : String) : Prop :=
  ∃ a b c rest, s.data = a :: b :: c :: rest
    ∧ a.isDigit = true ∧ b.isDigit = true ∧ c.isDigit = true ∧ ArticleTail rest

/-! ## Theorems -/

/-- The summarising fold, started from an arbitrary accumulator, adds the
qualifying lines' quantity and weight sums componentwise. -/
theorem summarize_foldl_eq (lines : List BoqLine) : ∀ a b : ℚ,
    (lines.foldl
      (fun (acc : ℚ × ℚ) line =>
        if line.is_boq_line then
          (acc.1 + (match line.quantity with | some q => q | none => 0),
           acc.2 + (match line.weight_kg with | some w => w | none => 0))
        else acc)
      (a, b)) =
    (a + ((lines.filter (fun l => l.is_boq_line)).map (fun l => l.quantity.getD 0)).sum,
     b + ((lines.filter (fun l => l.is_boq_line)).map (fun l => l.weight_kg.getD 0)).sum) := by
  induction lines with
  | nil => intro a b; simp
  | cons l ls ih =>
    intro a b
    cases hl : l.is_boq_line
    · simp [List.foldl_cons, hl, List.filter_cons, ih]
    · simp only [List.foldl_cons, hl, if_pos, ih, List.filter_cons, if_true,
        List.map_cons, List.sum_cons, Prod.mk.injEq]
      constructor
      · cases hq : l.quantity with
        | none => simp [hq]
        | some q => simp [hq]; ring
      · cases hw : l.weight_kg with
        | none => simp [hw]
        | some w => simp [hw]; ring

/-- With no row cap, the filtering loop appends exactly the rows passing
`keepRow`, in order. -/
theorem extractAux_none_eq (hidden : List Int) (l : List Row) : ∀ acc : List Row,
    extractAux hidden none acc l = acc ++ l.filter (keepRow hidden) := by
  induction l with
  | nil => intro acc; simp [extractAux]
  | cons r rest ih =>
    intro acc
    by_cases hh : r.row_index ∈ hidden
    · rw [extractAux, if_pos hh, ih]
      have : keepRow hidden r = false := by simp [keepRow, hh]
      simp [List.filter_cons, this]
    · by_cases hb : r.cells.any cellNonBlank = true
      · rw [extractAux, if_neg hh, if_pos hb]
        show extractAux hidden none (acc ++ [r]) rest = _
        rw [ih]
        have : keepRow hidden r = true := by simp [keepRow, hh, hb]
        simp [List.filter_cons, this]
      · rw [extractAux, if_neg hh, if_neg hb, ih]
        rw [Bool.not_eq_true] at hb
        have : keepRow hidden r = false := by simp [keepRow, hh, hb]
        simp [List.filter_cons, this]

/-- With a cap `m` not yet reached by the accumulator, the filtering loop
appends the next `m - acc.length` rows passing `keepRow`. -/
theorem extractAux_some_eq (hidden : List Int) (m : Int) (l : List Row) :
    ∀ acc : List Row, (acc.length : Int) < m →
    extractAux hidden (some m) acc l =
      acc ++ (l.filter (keepRow hidden)).take (m - acc.length).toNat := by
  induction l with
  | nil => intro acc _; simp [extractAux]
  | cons r rest ih =>
    intro acc hacc
    by_cases hh : r.row_index ∈ hidden
    · rw [extractAux, if_pos hh, ih acc hacc]
      have : keepRow hidden r = false := by simp [keepRow, hh]
      simp [List.filter_cons, this]
    · by_cases hb : r.cells.any cellNonBlank = true
      · rw [extractAux, if_neg hh, if_pos hb]
        show (if ((acc ++ [r]).length : Int) ≥ m then acc ++ [r]
          else extractAux hidden (some m) (acc ++ [r]) rest) = _
        have hkeep : keepRow hidden r = true := by simp [keepRow, hh, hb]
        simp only [List.filter_cons, hkeep, if_pos, if_true]
        by_cases hfull : ((acc ++ [r]).length : Int) ≥ m
        · rw [if_pos hfull]
          have hm : m = (acc.length : Int) + 1 := by
            simp only [List.length_append, List.length_cons, List.length_nil] at hfull
            omega
          have : (m - (acc.length : Int)).toNat = 1 := by omega
          simp [this]
        · rw [if_neg hfull]
          have hlt : (((acc ++ [r]).length : Int)) < m := by omega
          rw [ih _ hlt]
          have h1 : (m - ((acc ++ [r]).length : Int)).toNat
              = (m - (acc.length : Int)).toNat - 1 := by
            simp only [List.length_append, List.length_cons, List.length_nil]
            omega
          have h2 : (m - (acc.length : Int)).toNat
              = ((m - (acc.length : Int)).toNat - 1) + 1 := by omega
          rw [h1, h2, List.take_succ_cons]
          simp
      · rw [extractAux, if_neg hh, if_neg hb, ih acc hacc]
        rw [Bool.not_eq_true] at hb
        have : keepRow hidden r = false := by simp [keepRow, hh, hb]
        simp [List.filter_cons, this]

/-- `cellNonBlank` in logical form. -/
theorem cellNonBlank_eq_true_iff (c : Cell) :
    cellNonBlank c = true ↔ (c.value ≠ Value.null ∧ pyStrip (pyStr c.value) ≠ "") := by
  by_cases h1 : c.value = Value.null <;> by_cases h2 : pyStrip (pyStr c.value) = "" <;>
    simp [cellNonBlank, h1, h2]

/-- C2: for every list of BoqLines, the summary's `total_quantity` is the
sum of `quantity` (absent counted as 0) over exactly the lines with
`is_boq_line = true`, and `total_weight_kg` likewise sums `weight_kg`
over those lines; non-qualifying lines contribute nothing even when they
carry numeric values, and both totals are 0 when no line qualifies. -/
theorem summarize_boq_lines_totals (lines : List BoqLine) :
    summarize_boq_lines lines =
      Summary.mk
        (((lines.filter (fun l => l.is_boq_line)).map (fun l => l.quantity.getD 0)).sum)
        (((lines.filter (fun l => l.is_boq_line)).map (fun l => l.weight_kg.getD 0)).sum) := by
  simp only [summarize_boq_lines, summarize_foldl_eq]
  simp

/-- C6: raw extraction on a decoded sheet returns exactly the adapter rows
that are not flagged hidden and have at least one cell whose value is
non-null and non-empty after stringification and trimming, in their
original (hence ascending, when the adapter emits ascending) row order,
for both decoder branches. -/
theorem extract_visible_rows_exactly_filter (sh : Sheet) :
    extract_visible_rows_from_active_sheet (Except.ok sh) ".xlsx" none
      = Except.ok (ExtractResult.mk sh.sheet_name
          (sh.rows.filter (keepRow sh.hiddenRows)).length
          (sh.rows.filter (keepRow sh.hiddenRows)))
    ∧ extract_visible_rows_from_active_sheet (Except.ok sh) ".xls" none
      = Except.ok (ExtractResult.mk sh.sheet_name
          (sh.rows.filter (keepRow sh.hiddenRows)).length
          (sh.rows.filter (keepRow sh.hiddenRows)))
    ∧ (∀ r : Row, keepRow sh.hiddenRows r = true ↔
        (r.row_index ∉ sh.hiddenRows ∧
          ∃ c ∈ r.cells, c.value ≠ Value.null ∧ pyStrip (pyStr c.value) ≠ ""))
    ∧ (List.Pairwise (fun r s => r.row_index < s.row_index) sh.rows →
        List.Pairwise (fun r s => r.row_index < s.row_index)
          (sh.rows.filter (keepRow sh.hiddenRows))) := by
  refine ⟨?_, ?_, ?_, ?_⟩
  · show Except.ok (ExtractResult.mk sh.sheet_name
        (extractAux sh.hiddenRows none [] sh.rows).length
        (extractAux sh.hiddenRows none [] sh.rows)) = _
    rw [extractAux_none_eq]
    simp
  · show Except.ok (ExtractResult.mk sh.sheet_name
        (extractAux sh.hiddenRows none [] sh.rows).length
        (extractAux sh.hiddenRows none [] sh.rows)) = _
    rw [extractAux_none_eq]
    simp
  · intro r
    by_cases hh : r.row_index ∈ sh.hiddenRows
    · simp [keepRow, hh]
    · simp [keepRow, hh, List.any_eq_true, cellNonBlank_eq_true_iff]
  · intro h
    exact List.Pairwise.sublist (List.filter_sublist _) h

theorem extract_visible_rows_exactly_filter_witness :
    extract_visible_rows_from_active_sheet (Except.ok sheetW6) ".xlsx" none
      = Except.ok (ExtractResult.mk "S" 1 [rowVisibleW]) :=
  (extract_visible_rows_exactly_filter sheetW6).1.trans (by rfl)

/-- C7 (amended): for `max_rows = N ≥ 1`, extraction emits exactly the
first `N` rows of the survivor sequence — so at most `N` rows, counted
over survivors and not over raw rows visited — in both decoder branches.
(`N = 0` is excluded: the cap is only checked after a row is kept, so the
first survivor is still emitted then; see the counterexample.) -/
theorem max_rows_counts_survivors (sh : Sheet) (m : Int) (hm : 1 ≤ m) :
    (extract_visible_rows_from_active_sheet (Except.ok sh) ".xlsx" (some m)
      = Except.ok (ExtractResult.mk sh.sheet_name
          ((sh.rows.filter (keepRow sh.hiddenRows)).take m.toNat).length
          ((sh.rows.filter (keepRow sh.hiddenRows)).take m.toNat)))
    ∧ (extract_visible_rows_from_active_sheet (Except.ok sh) ".xls" (some m)
      = Except.ok (ExtractResult.mk sh.sheet_name
          ((sh.rows.filter (keepRow sh.hiddenRows)).take m.toNat).length
          ((sh.rows.filter (keepRow sh.hiddenRows)).take m.toNat)))
    ∧ ((sh.rows.filter (keepRow sh.hiddenRows)).take m.toNat).length ≤ m.toNat := by
  have hext := extractAux_some_eq sh.hiddenRows m sh.rows [] (by simpa using hm)
  simp only [List.nil_append, List.length_nil, Nat.cast_zero, Int.sub_zero] at hext
  refine ⟨?_, ?_, ?_⟩
  · show Except.ok (ExtractResult.mk sh.sheet_name
        (extractAux sh.hiddenRows (some m) [] sh.rows).length
        (extractAux sh.hiddenRows (some m) [] sh.rows)) = _
    rw [hext]
  · show Except.ok (ExtractResult.mk sh.sheet_name
        (extractAux sh.hiddenRows (some m) [] sh.rows).length
        (extractAux sh.hiddenRows (some m) [] sh.rows)) = _
    rw [hext]
  · rw [List.length_take]
    exact min_le_left _ _

theorem max_rows_zero_counterexample :
    extract_visible_rows_from_active_sheet (Except.ok sheetC7) ".xlsx" (some 0)
      = Except.ok (ExtractResult.mk "S" 1 [rowC7])
    ∧ ¬((ExtractResult.mk "S" 1 [rowC7]).rows.length ≤ 0) :=
  ⟨rfl, by decide⟩

theorem max_rows_counts_survivors_witness :
    extract_visible_rows_from_active_sheet (Except.ok sheetW7) ".xlsx" (some 2)
      = Except.ok (ExtractResult.mk "S" 2
          [Row.mk 1 [Cell.mk "A1" 1 "A" 1 (Value.str "a")],
           Row.mk 2 [Cell.mk "A2" 1 "A" 2 (Value.str "b")]]) :=
  (max_rows_counts_survivors sheetW7 2 (by decide)).1.trans (by rfl)

/-- C8: any request whose (lowercased) file extension is outside the
accepted set is rejected by both endpoints with an `UnsupportedExtension`
rejection carrying a non-empty human-readable cause, regardless of the
decoder's outcome on the bytes — in particular also when the bytes are
undecodable, showing the check precedes any decoding attempt. -/
theorem unsupported_extension_rejected (filename : String)
    (decoded : Except String Sheet) (maxRows : Option Int)
    (qh uh : Option String)
    (h : pyLower (splitextExt (if filename = "" then "uploaded" else filename))
        ∉ acceptedExtensions) :
    parse_excel filename decoded maxRows
      = Except.error (ParseError.unsupportedExtension
          "Le fichier doit être un Excel .xlsx / .xlsm / .xltx / .xltm / .xls")
    ∧ parse_excel_transformed filename decoded maxRows qh uh
      = Except.error (ParseError.unsupportedExtension
          "Le fichier doit être un Excel .xlsx / .xlsm / .xltx / .xltm / .xls")
    ∧ "Le fichier doit être un Excel .xlsx / .xlsm / .xltx / .xltm / .xls" ≠ "" := by
  refine ⟨?_, ?_, by decide⟩
  · simp only [parse_excel]
    rw [if_neg h]
  · simp only [parse_excel_transformed]
    rw [if_neg h]

theorem unsupported_extension_rejected_witness :
    parse_excel "doc.pdf" (Except.error "corrupt") none
      = Except.error (ParseError.unsupportedExtension
          "Le fichier doit être un Excel .xlsx / .xlsm / .xltx / .xltm / .xls")
    ∧ parse_excel_transformed "doc.pdf" (Except.error "corrupt") none none none
      = Except.error (ParseError.unsupportedExtension
          "Le fichier doit être un Excel .xlsx / .xlsm / .xltx / .xltm / .xls")
    ∧ "Le fichier doit être un Excel .xlsx / .xlsm / .xltx / .xltm / .xls" ≠ "" :=
  unsupported_extension_rejected "doc.pdf" (Except.error "corrupt") none none none
    (by decide)

theorem is_boq_line_bool_counterexample :
    (to_boq_line rowC1 rolesC1).is_boq_line = true
    ∧ has_number_kind_cell rowC1.cells = false := by decide

/-- C1 (amended): `is_boq_line` is true iff some cell is textual with
trimmed length above 5, some cell satisfies the Python numeric test
(int, float — or bool, since Python `bool` is an `int` subtype), and at
least one of the derived fields article_code, unit, quantity, weight_kg
is present; the two signals range over all cells regardless of roles. -/
theorem is_boq_line_iff (row : Row) (roles : ColumnRoles) :
    (to_boq_line row roles).is_boq_line = true ↔
      (has_description_signal row.cells = true ∧ has_numeric_signal row.cells = true ∧
        ((to_boq_line row roles).article_code.isSome = true
         ∨ (to_boq_line row roles).unit.isSome = true
         ∨ (to_boq_line row roles).quantity.isSome = true
         ∨ (to_boq_line row roles).weight_kg.isSome = true)) := by
  simp only [to_boq_line, has_description_signal, has_numeric_signal]
  simp [Bool.and_eq_true, Bool.or_eq_true, and_assoc, or_assoc]

theorem quantity_bool_counterexample :
    (to_boq_line rowC4 rolesC4).quantity = some 1 := by decide

/-- C4 (amended): with a quantity (resp. weight_kg) column assigned, the
field is set to `float(value)` exactly when the cell's value passes
Python's `isinstance(value, (int, float))` — which accepts booleans,
`True` becoming 1.0 and `False` 0.0 — and is null for every value
failing that test (strings, dates, null), without raising an error. -/
theorem quantity_weight_accept_numericPy (row : Row) (roles : ColumnRoles) :
    (∀ col c, roles.quantity = some col → col ≠ "" →
      cell_by_col_letter row.cells col = some c →
      ((c.value.isNumericPy = true →
          (to_boq_line row roles).quantity = some c.value.toFloatQ)
       ∧ (∀ b, c.value = Value.bool b →
          (to_boq_line row roles).quantity = some (if b then (1 : ℚ) else 0))
       ∧ (c.value.isNumericPy = false → (to_boq_line row roles).quantity = none)))
    ∧ (∀ col c, roles.weight_kg = some col → col ≠ "" →
      cell_by_col_letter row.cells col = some c →
      ((c.value.isNumericPy = true →
          (to_boq_line row roles).weight_kg = some c.value.toFloatQ)
       ∧ (∀ b, c.value = Value.bool b →
          (to_boq_line row roles).weight_kg = some (if b then (1 : ℚ) else 0))
       ∧ (c.value.isNumericPy = false → (to_boq_line row roles).weight_kg = none))) := by
  constructor
  · intro col c hrole hne hc
    have hq : (to_boq_line row roles).quantity
        = (if c.value.isNumericPy then some c.value.toFloatQ else none) := by
      simp [to_boq_line, hrole, hne, hc]
    refine ⟨?_, ?_, ?_⟩
    · intro h; rw [hq, if_pos h]
    · intro b hb; rw [hq, hb]; simp [Value.isNumericPy, Value.toFloatQ]
    · intro h; rw [hq, if_neg (by simp [h])]
  · intro col c hrole hne hc
    have hw : (to_boq_line row roles).weight_kg
        = (if c.value.isNumericPy then some c.value.toFloatQ else none) := by
      simp [to_boq_line, hrole, hne, hc]
    refine ⟨?_, ?_, ?_⟩
    · intro h; rw [hw, if_pos h]
    · intro b hb; rw [hw, hb]; simp [Value.isNumericPy, Value.toFloatQ]
    · intro h; rw [hw, if_neg (by simp [h])]

theorem quantity_weight_accept_numericPy_witness :
    (to_boq_line rowC4w rolesC4w).quantity = some (if true then (1 : ℚ) else 0)
    ∧ (to_boq_line rowC4w rolesC4w).weight_kg = none :=
  ⟨((quantity_weight_accept_numericPy rowC4w rolesC4w).1 "A"
      (Cell.mk "A1" 1 "A" 1 (Value.bool true)) rfl (by decide) rfl).2.1 true rfl,
   ((quantity_weight_accept_numericPy rowC4w rolesC4w).2 "B"
      (Cell.mk "B1" 2 "B" 1 (Value.str "words")) rfl (by decide) rfl).2.2 rfl⟩

/-- `Char.toNat` is injective. -/
theorem char_toNat_inj (a b : Char) (h : a.toNat = b.toNat) : a = b := by
  apply Char.eq_of_val_eq
  apply UInt32.eq_of_toBitVec_eq
  exact BitVec.eq_of_toNat_eq h

/-- `listLexLt` is irreflexive. -/
theorem listLexLt_irrefl (l : List Char) : listLexLt l l = false := by
  induction l with
  | nil => rfl
  | cons a as ih => simp [listLexLt, ih]

/-- `listLexLt` is transitive. -/
theorem listLexLt_trans : ∀ a b c : List Char,
    listLexLt a b = true → listLexLt b c = true → listLexLt a c = true := by
  intro a
  induction a with
  | nil =>
    intro b c hab hbc
    cases b with
    | nil => exact absurd hab (by simp [listLexLt])
    | cons y ys =>
      cases c with
      | nil => exact absurd hbc (by simp [listLexLt])
      | cons z zs => simp [listLexLt]
  | cons x xs ih =>
    intro b c hab hbc
    cases b with
    | nil => exact absurd hab (by simp [listLexLt])
    | cons y ys =>
      cases c with
      | nil => exact absurd hbc (by simp [listLexLt])
      | cons z zs =>
        rw [listLexLt] at hab hbc ⊢
        split_ifs at hab hbc ⊢ <;>
          first
            | rfl
            | exact ih ys zs hab hbc
            | exact absurd hab (by decide)
            | exact absurd hbc (by decide)
            | (exfalso; omega)

/-- `listLexLt` is connected: two mutually non-smaller lists are equal. -/
theorem listLexLt_eq_of_not_lt : ∀ a b : List Char,
    listLexLt a b = false → listLexLt b a = false → a = b := by
  intro a
  induction a with
  | nil =>
    intro b hab _
    cases b with
    | nil => rfl
    | cons y ys => exact absurd hab (by simp [listLexLt])
  | cons x xs ih =>
    intro b hab hba
    cases b with
    | nil => exact absurd hba (by simp [listLexLt])
    | cons y ys =>
      rw [listLexLt] at hab hba
      split_ifs at hab hba with h1 h2
      have hxy : x = y := char_toNat_inj _ _ (by omega)
      rw [hxy, ih ys hab hba]

/-- `strLt` is transitive. -/
theorem strLt_trans (a b c : String) (hab : strLt a b = true) (hbc : strLt b c = true) :
    strLt a c = true :=
  listLexLt_trans a.data b.data c.data hab hbc

/-- Two mutually non-smaller strings are equal. -/
theorem strEq_of_not_lt (a b : String) (hab : strLt a b = false)
    (hba : strLt b a = false) : a = b := by
  cases a with
  | mk da =>
    cases b with
    | mk db => exact congrArg String.mk (listLexLt_eq_of_not_lt da db hab hba)

/-- `minString?` of a non-empty list returns a member that is smaller than
or equal to every member. -/
theorem minString?_spec (l : List String) : ∀ m, minString? l = some m →
    m ∈ l ∧ ∀ x ∈ l, m = x ∨ strLt m x = true := by
  induction l with
  | nil => intro m h; exact absurd h (by simp [minString?])
  | cons s rest ih =>
    intro m h
    rw [minString?] at h
    cases hr : minString? rest with
    | none =>
      rw [hr] at h
      injection h with h
      have hrest : rest = [] := by
        cases rest with
        | nil => rfl
        | cons a as =>
          rw [minString?] at hr
          cases h2 : minString? as <;> rw [h2] at hr <;> exact absurd hr (by simp)
      subst hrest
      subst h
      exact ⟨List.mem_singleton_self _, by intro x hx; left; exact (List.mem_singleton.mp hx).symm⟩
    | some m' =>
      rw [hr] at h
      obtain ⟨hmem', hmin'⟩ := ih m' hr
      injection h with h
      by_cases hlt : strLt s m' = true
      · rw [if_pos hlt] at h
        subst h
        refine ⟨List.mem_cons_self _ _, ?_⟩
        intro x hx
        rcases List.mem_cons.mp hx with rfl | hx'
        · left; rfl
        · rcases hmin' x hx' with rfl | hlt2
          · right; exact hlt
          · right; exact strLt_trans _ _ _ hlt hlt2
      · rw [if_neg hlt] at h
        subst h
        rw [Bool.not_eq_true] at hlt
        refine ⟨List.mem_cons_of_mem _ hmem', ?_⟩
        intro x hx
        rcases List.mem_cons.mp hx with rfl | hx'
        · by_cases h2 : strLt m' x = true
          · right; exact h2
          · rw [Bool.not_eq_true] at h2
            left
            exact strEq_of_not_lt m' x h2 hlt
        · exact hmin' x hx'

/-- With no hints, the detector's resolved column for each role is
`minString?` of that role's keyword candidates. -/
theorem detect_none_get (preview : List Row) (role : Role) :
    (detect_column_roles preview none none).get role
      = minString? (keywordCandidates preview role) := by
  cases role <;> rfl

/-- C9: after the keyword phase, every role with at least one candidate
resolves to the lexicographically smallest candidate column-letter string
under code-point string comparison (not spreadsheet column order). -/
theorem keyword_phase_lexicographic_min (preview : List Row) (role : Role) (c0 : String)
    (h : c0 ∈ keywordCandidates preview role) :
    ∃ m, (detect_column_roles preview none none).get role = some m
      ∧ m ∈ keywordCandidates preview role
      ∧ ∀ x ∈ keywordCandidates preview role, m = x ∨ strLt m x = true := by
  rw [detect_none_get]
  cases hc : keywordCandidates preview role with
  | nil => rw [hc] at h; exact absurd h (List.not_mem_nil c0)
  | cons a as =>
    have hsome : ∃ m, minString? (a :: as) = some m := by
      rw [minString?]
      cases h2 : minString? as <;> simp
    obtain ⟨m, hm⟩ := hsome
    obtain ⟨hmem, hmin⟩ := minString?_spec (a :: as) m hm
    exact ⟨m, hm, hc ▸ hmem, hc ▸ hmin⟩

theorem keyword_phase_lexicographic_min_witness :
    (∃ m, (detect_column_roles [rowKW9] none none).get Role.quantity = some m
      ∧ m ∈ keywordCandidates [rowKW9] Role.quantity
      ∧ ∀ x ∈ keywordCandidates [rowKW9] Role.quantity, m = x ∨ strLt m x = true)
    ∧ (detect_column_roles [rowKW9] none none).quantity = some "AA" :=
  ⟨keyword_phase_lexicographic_min [rowKW9] Role.quantity "B" (by decide), by decide⟩

/-- A successful hint scan returns the column letter of some preview cell. -/
theorem find_col_by_hint_mem (preview : List Row) (h col : String)
    (hf : find_col_by_hint preview h = some col) :
    ∃ r ∈ preview, ∃ c ∈ r.cells, c.col_letter = col := by
  rw [find_col_by_hint, List.findSome?_eq_some_iff] at hf
  obtain ⟨l1, row, l2, hsplit, hrow2, -⟩ := hf
  rw [List.findSome?_eq_some_iff] at hrow2
  obtain ⟨m1, c, m2, hsplit2, hc2, -⟩ := hrow2
  refine ⟨row, by rw [hsplit]; simp, c, by rw [hsplit2]; simp, ?_⟩
  split_ifs at hc2
  injection hc2

/-- The unit-hint phase never changes the resolved quantity column. -/
theorem quantity_ignores_unit_hint (preview : List Row) (qh uh : Option String) :
    (detect_column_roles preview qh uh).quantity
      = (detect_column_roles preview qh none).quantity := by
  rcases uh with _ | h'
  · rfl
  · simp only [detect_column_roles]
    by_cases h'e : h' = ""
    · simp [h'e]
    · simp only [h'e, ite_false]
      cases hf : find_col_by_hint preview h' with
      | none => simp
      | some col => by_cases hc : col = "" <;> simp [hc]

/-- Behaviour of the quantity hint: a non-empty hint resolves the quantity
role to the scan's column when the scan succeeds (given well-formed,
non-empty column letters), and keeps the hint-free result otherwise. -/
theorem quantity_hint_behavior (preview : List Row) (h : String) (uh : Option String)
    (hwf : ∀ r ∈ preview, ∀ c ∈ r.cells, c.col_letter ≠ "") (hne : h ≠ "") :
    (detect_column_roles preview (some h) uh).quantity =
      match find_col_by_hint preview h with
      | some col => some col
      | none => (detect_column_roles preview none uh).quantity := by
  rw [quantity_ignores_unit_hint preview (some h) uh,
    quantity_ignores_unit_hint preview none uh]
  simp only [detect_column_roles]
  cases hf : find_col_by_hint preview h with
  | none => simp [hne]
  | some col =>
    have hcol : col ≠ "" := by
      obtain ⟨r, hr, c, hc, hcc⟩ := find_col_by_hint_mem preview h col hf
      exact hcc ▸ hwf r hr c hc
    simp [hne, hcol]

/-- Behaviour of the unit hint, for any quantity hint. -/
theorem unit_hint_behavior (preview : List Row) (h : String) (qh : Option String)
    (hwf : ∀ r ∈ preview, ∀ c ∈ r.cells, c.col_letter ≠ "") (hne : h ≠ "") :
    (detect_column_roles preview qh (some h)).unit =
      match find_col_by_hint preview h with
      | some col => some col
      | none => (detect_column_roles preview qh none).unit := by
  simp only [detect_column_roles]
  cases hf : find_col_by_hint preview h with
  | none => simp [hne]
  | some col =>
    have hcol : col ≠ "" := by
      obtain ⟨r, hr, c, hc, hcc⟩ := find_col_by_hint_mem preview h col hf
      exact hcc ▸ hwf r hr c hc
    simp [hne, hcol]

theorem hint_normalization_counterexample :
    (detect_column_roles [rowC5] (some "a  b") none).quantity = none
    ∧ claimHintResolve [rowC5] "a  b" = some "A" := by decide

/-- C5 (amended): the hint is normalized by trimming and lowercasing only
(no whitespace collapsing, no pipe replacement); each cell's
stringification is normalized with pipes-to-spaces, whitespace collapse
and lowercasing; the role resolves to the first (row-major) matching
cell's column, overriding the keyword-phase result, and keeps the
hint-free result when no cell matches — for the quantity and the unit
hint alike. -/
theorem hint_override_strip_lower (preview : List Row) (h : String)
    (qh uh : Option String)
    (hwf : ∀ r ∈ preview, ∀ c ∈ r.cells, c.col_letter ≠ "") (hne : h ≠ "") :
    ((detect_column_roles preview (some h) uh).quantity =
      match find_col_by_hint preview h with
      | some col => some col
      | none => (detect_column_roles preview none uh).quantity)
    ∧ ((detect_column_roles preview qh (some h)).unit =
      match find_col_by_hint preview h with
      | some col => some col
      | none => (detect_column_roles preview qh none).unit)
    ∧ find_col_by_hint preview h = amendedHintResolve preview h :=
  ⟨quantity_hint_behavior preview h uh hwf hne,
   unit_hint_behavior preview h qh hwf hne,
   rfl⟩

theorem hint_override_strip_lower_witness :
    (detect_column_roles [rowC5w] (some "b c") none).quantity = some "B"
    ∧ (detect_column_roles [rowC5w] none none).quantity = some "A" := by
  constructor
  · have hth := (hint_override_strip_lower [rowC5w] "b c" none none
      (by decide) (by decide)).1
    rw [show find_col_by_hint [rowC5w] "b c" = some "B" from by decide] at hth
    simpa using hth
  · decide

/-- The empty character list is a contiguous sublist of every list. -/
theorem listContainsSub_nil (l : List Char) : listContainsSub [] l = true := by
  cases l <;> simp [listContainsSub, List.isPrefixOf]

/-- The empty string is a substring of every string (Python `"" in s`). -/
theorem strContainsSub_empty (s : String) : strContainsSub s "" = true :=
  listContainsSub_nil s.data

/-- A whitespace-only hint strips to the empty string, whose containment
test always succeeds, so the hint scan degenerates to the first
non-null-valued cell. -/
theorem find_col_by_hint_blank (preview : List Row) (h : String)
    (hws : pyStrip h = "") :
    find_col_by_hint preview h = firstNonNullCol preview := by
  simp only [find_col_by_hint, firstNonNullCol, hws]
  rw [show pyLower "" = "" from rfl]
  congr 1
  funext row
  congr 1
  funext c
  by_cases h1 : c.value = Value.null
  · simp [h1]
  · simp [h1, strContainsSub_empty]

/-- C10: a supplied, non-empty but whitespace-only quantity (resp. unit)
hint resolves the quantity (resp. unit) role to the column letter of the
first (row-major then column-major) cell holding a non-null value —
because the trimmed, lowercased hint is the empty string, a substring of
every normalized cell text — overriding any keyword-phase result; an
exactly-empty quantity (resp. unit) hint string is treated as absent and
triggers no override at all. -/
theorem whitespace_hint_first_nonnull (preview : List Row) (h : String)
    (qh uh : Option String)
    (hwf : ∀ r ∈ preview, ∀ c ∈ r.cells, c.col_letter ≠ "")
    (hne : h ≠ "") (hws : pyStrip h = "") :
    ((detect_column_roles preview (some h) uh).quantity =
      match firstNonNullCol preview with
      | some col => some col
      | none => (detect_column_roles preview none uh).quantity)
    ∧ ((detect_column_roles preview qh (some h)).unit =
      match firstNonNullCol preview with
      | some col => some col
      | none => (detect_column_roles preview qh none).unit)
    ∧ detect_column_roles preview (some "") uh = detect_column_roles preview none uh
    ∧ detect_column_roles preview qh (some "") = detect_column_roles preview qh none := by
  refine ⟨?_, ?_, rfl, rfl⟩
  · rw [quantity_hint_behavior preview h uh hwf hne,
      find_col_by_hint_blank preview h hws]
  · rw [unit_hint_behavior preview h qh hwf hne,
      find_col_by_hint_blank preview h hws]

theorem whitespace_hint_first_nonnull_witness :
    (detect_column_roles [rowC10] (some " ") none).quantity = some "B"
    ∧ (detect_column_roles [rowC10] none (some " ")).unit = some "B" := by
  have h10 := whitespace_hint_first_nonnull [rowC10] " " none none
    (by decide) (by decide) (by decide)
  rw [show firstNonNullCol [rowC10] = some "B" from by decide] at h10
  exact ⟨h10.1, h10.2.1⟩

theorem article_code_group_length_counterexample :
    detect_article_code [cellC3] = some "003.1234."
    ∧ claimArticlePattern "003.1234." = false := by decide

/-- An ASCII uppercase letter is not a digit. -/
theorem upperAZ_not_digit (c : Char) (h : isUpperAZ c = true) : c.isDigit = false := by
  simp only [isUpperAZ, Bool.and_eq_true, decide_eq_true_eq, Char.le_def] at h
  by_contra hd
  rw [Bool.not_eq_false] at hd
  simp only [Char.isDigit, Bool.and_eq_true, decide_eq_true_eq] at hd
  obtain ⟨hA, -⟩ := h
  obtain ⟨-, h57⟩ := hd
  have hA' : ('A' : Char).val.toNat ≤ c.val.toNat := hA
  have h57' : c.val.toNat ≤ (57 : UInt32).toNat := h57
  rw [show ('A' : Char).val.toNat = 65 from rfl] at hA'
  rw [show ((57 : UInt32)).toNat = 57 from rfl] at h57'
  omega

/-- A list accepted by `artTail` is the final dot alone or starts with a
dot followed by at least one more character. -/
theorem artTail_shape (l : List Char) (h : artTail l = true) :
    l = ['.'] ∨ ∃ c rest, l = '.' :: c :: rest := by
  rw [artTail.eq_def] at h
  split at h
  · left; rfl
  · right; exact ⟨_, _, rfl⟩
  · exact absurd h (by simp)

/-- Forward reading of the digit-run state: an accepted list splits into a
digit run followed by an `artTail`-accepted remainder. -/
theorem artAfterDigits_forward : ∀ l : List Char, artAfterDigits l = true →
    ∃ ds rest, l = ds ++ rest ∧ (∀ c ∈ ds, c.isDigit = true) ∧ artTail rest = true
  | [] => fun h => absurd h (by simp [artAfterDigits])
  | [c] => fun h => by
    have hc : c = '.' := of_decide_eq_true h
    subst hc
    exact ⟨[], ['.'], rfl, by simp, rfl⟩
  | c :: c2 :: rest => fun h => by
    have h' : (if c.isDigit then artAfterDigits (c2 :: rest)
        else if c = '.' then
          (if c2.isDigit then artAfterDigits rest
           else if isUpperAZ c2 then decide (rest = ['.']) else false)
        else false) = true := h
    by_cases hc : c.isDigit = true
    · rw [if_pos hc] at h'
      obtain ⟨ds, rest2, heq, hds, htail⟩ := artAfterDigits_forward (c2 :: rest) h'
      refine ⟨c :: ds, rest2, ?_, ?_, htail⟩
      · rw [List.cons_append, ← heq]
      · intro x hx
        rcases List.mem_cons.mp hx with rfl | hx'
        · exact hc
        · exact hds x hx'
    · rw [if_neg hc] at h'
      by_cases hdot : c = '.'
      · rw [if_pos hdot] at h'
        subst hdot
        exact ⟨[], '.' :: c2 :: rest, rfl, by simp, h'⟩
      · rw [if_neg hdot] at h'
        exact absurd h' (by simp)

/-- Backward reading: a digit run followed by an `artTail`-accepted
remainder is accepted by the digit-run state. -/
theorem artAfterDigits_backward : ∀ ds rest : List Char,
    (∀ c ∈ ds, c.isDigit = true) → artTail rest = true →
    artAfterDigits (ds ++ rest) = true := by
  intro ds
  induction ds with
  | nil =>
    intro rest hds htail
    rcases artTail_shape rest htail with rfl | ⟨c, r2, rfl⟩
    · rfl
    · show artAfterDigits ('.' :: c :: r2) = true
      have h' : artTail ('.' :: c :: r2)
          = (if c.isDigit then artAfterDigits r2
             else if isUpperAZ c then decide (r2 = ['.']) else false) := rfl
      rw [h'] at htail
      show (if ('.' : Char).isDigit then artAfterDigits (c :: r2)
          else if ('.' : Char) = '.' then
            (if c.isDigit then artAfterDigits r2
             else if isUpperAZ c then decide (r2 = ['.']) else false)
          else false) = true
      rw [if_neg (by decide), if_pos rfl]
      exact htail
  | cons d ds' ih =>
    intro rest hds htail
    have hd : d.isDigit = true := hds d (List.mem_cons_self _ _)
    have hne : ds' ++ rest ≠ [] := by
      rcases artTail_shape rest htail with rfl | ⟨c, r2, rfl⟩ <;> simp
    show artAfterDigits (d :: (ds' ++ rest)) = true
    cases hxs : ds' ++ rest with
    | nil => exact absurd hxs hne
    | cons x xs2 =>
      show (if d.isDigit then artAfterDigits (x :: xs2)
          else if d = '.' then
            (if x.isDigit then artAfterDigits xs2
             else if isUpperAZ x then decide (xs2 = ['.']) else false)
          else false) = true
      rw [if_pos hd, ← hxs]
      exact ih rest (fun c hc => hds c (List.mem_cons_of_mem _ hc)) htail

/-- Soundness of the tail matcher: an accepted list has the
`(\.\d+)*(\.[A-Z])?\.` structure. -/
theorem artTail_forward (l : List Char) (h : artTail l = true) : ArticleTail l := by
  suffices H : ∀ n (l : List Char), l.length ≤ n → artTail l = true → ArticleTail l from
    H l.length l le_rfl h
  intro n
  induction n with
  | zero =>
    intro l hl h
    have : l = [] := List.eq_nil_of_length_eq_zero (Nat.le_zero.mp hl)
    subst this
    exact absurd h (by simp [artTail])
  | succ n ih =>
    intro l hl h
    rcases artTail_shape l h with rfl | ⟨c, rest, rfl⟩
    · exact ArticleTail.finalDot
    · have h' : (if c.isDigit then artAfterDigits rest
          else if isUpperAZ c then decide (rest = ['.']) else false) = true := h
      by_cases hc : c.isDigit = true
      · rw [if_pos hc] at h'
        obtain ⟨ds, rest2, heq, hds, htail⟩ := artAfterDigits_forward rest h'
        have hlen : rest2.length ≤ n := by
          have h1 := congrArg List.length heq
          simp only [List.length_append, List.length_cons] at h1 hl
          omega
        have htail2 : ArticleTail rest2 := ih rest2 hlen htail
        have hgrp : ArticleTail ('.' :: ((c :: ds) ++ rest2)) :=
          ArticleTail.group (c :: ds) rest2 (by simp)
            (by
              intro x hx
              rcases List.mem_cons.mp hx with rfl | hx'
              · exact hc
              · exact hds x hx')
            htail2
        rw [heq]
        simpa [List.cons_append] using hgrp
      · rw [if_neg hc] at h'
        by_cases hu : isUpperAZ c = true
        · rw [if_pos hu] at h'
          have hrest : rest = ['.'] := of_decide_eq_true h'
          subst hrest
          exact ArticleTail.letterDot c hu
        · rw [if_neg hu] at h'
          exact absurd h' (by simp)

/-- Completeness of the tail matcher. -/
theorem artTail_backward (l : List Char) (h : ArticleTail l) : artTail l = true := by
  induction h with
  | finalDot => rfl
  | letterDot u hu =>
    have hd : u.isDigit = false := upperAZ_not_digit u hu
    show (if u.isDigit then artAfterDigits ['.']
        else if isUpperAZ u then decide ((['.'] : List Char) = ['.']) else false) = true
    simp [hd, hu]
  | group ds rest hne hds htail ih =>
    cases ds with
    | nil => exact absurd rfl hne
    | cons d ds' =>
      have hd : d.isDigit = true := hds d (List.mem_cons_self _ _)
      show (if d.isDigit then artAfterDigits (ds' ++ rest)
          else if isUpperAZ d then decide ((ds' ++ rest) = ['.']) else false) = true
      rw [if_pos hd]
      exact artAfterDigits_backward ds' rest
        (fun c hc => hds c (List.mem_cons_of_mem _ hc)) ih

/-- The tail matcher recognises exactly the `ArticleTail` structure. -/
theorem artTail_iff (l : List Char) : artTail l = true ↔ ArticleTail l :=
  ⟨artTail_forward l, artTail_backward l⟩

/-- C3 (amended): the article-code matcher accepts exactly the strings of
the shape "first group of exactly three digits, zero or more further
dot-separated groups of *one or more* digits, optionally a dot and one
uppercase letter, then a trailing dot"; the detector returns the trimmed
stringification of the first cell (in cell order) whose trimmed
stringification matches, and none when no cell matches; the claim's
stated examples behave as stated ("003.012.A." matches, "003.012.A" and
"12.034." do not) — but later groups need not have exactly three digits
(see the counterexample). -/
theorem detect_article_code_spec :
    (∀ s : String, ARTICLE_CODE_REGEX s = true ↔ ArticleCodeSpec s)
    ∧ (∀ (cells : List Cell) (v : String), detect_article_code cells = some v ↔
        ∃ pre c post, cells = pre ++ c :: post ∧ articleCellMatch c = some v
          ∧ ∀ c2 ∈ pre, articleCellMatch c2 = none)
    ∧ (∀ (c : Cell) (v : String), articleCellMatch c = some v ↔
        (c.value ≠ Value.null ∧ v = pyStrip (pyStr c.value)
          ∧ ARTICLE_CODE_REGEX v = true))
    ∧ ARTICLE_CODE_REGEX "003.012.A." = true
    ∧ ARTICLE_CODE_REGEX "003.012.A" = false
    ∧ ARTICLE_CODE_REGEX "12.034." = false := by
  refine ⟨?_, ?_, ?_, by decide, by decide, by decide⟩
  · intro s
    constructor
    · intro h
      rw [ARTICLE_CODE_REGEX.eq_def] at h
      cases hdata : s.data with
      | nil => rw [hdata] at h; exact absurd h (by simp)
      | cons a t1 =>
        cases t1 with
        | nil => rw [hdata] at h; exact absurd h (by simp)
        | cons b t2 =>
          cases t2 with
          | nil => rw [hdata] at h; exact absurd h (by simp)
          | cons c rest =>
            rw [hdata] at h
            simp only [Bool.and_eq_true] at h
            exact ⟨a, b, c, rest, hdata, h.1.1.1, h.1.1.2, h.1.2,
              artTail_forward rest h.2⟩
    · rintro ⟨a, b, c, rest, hdata, ha, hb, hc, htail⟩
      rw [ARTICLE_CODE_REGEX.eq_def, hdata]
      simp [ha, hb, hc, artTail_backward rest htail]
  · intro cells v
    rw [detect_article_code]
    exact List.findSome?_eq_some_iff
  · intro c v
    simp only [articleCellMatch]
    split_ifs with h1 h2
    · simp [h1]
    · constructor
      · intro hv
        injection hv with hv
        exact ⟨h1, hv.symm, hv ▸ h2⟩
      · rintro ⟨-, rfl, -⟩
        rfl
    · constructor
      · intro hv
        exact absurd hv (by simp)
      · rintro ⟨-, rfl, hr⟩
        exact absurd hr h2

theorem detect_article_code_spec_witness : ArticleCodeSpec "003.012.A." :=
  (detect_article_code_spec.1 "003.012.A.").mp (by decide)
